import Mathlib

/-!
Shallow embedding of the parametrization core of the `nevergrad` repository:

* `src/nevergrad/instrumentation/parameter.py` — the `Array` leaf parameter
  (value storage, the standardized-data transform scaled by `sigma`,
  `spawn_child`, `recombine`) and the `ParametersList` container
  (stringified-integer keys, value assembly sorted by `int(key)`).
* `src/nevergrad/parametrization/container.py` — `Tuple` (same
  sorted-by-`int(key)` value assembly), `Instrumentation` with its lazily
  memoized `_compatibility` copy used by `arguments_to_data` /
  `data_to_arguments`.

Numeric arrays are embedded as flat `List ℚ` together with a `shape`
(`List ℕ`): numpy's `reshape`/`ravel` only move shape metadata around, and
rational arithmetic is the idealized ("modulo floating-point tolerance")
semantics of the float operations.  Python exceptions are embedded as an
explicit error component (`Option PyErr` / `Except PyErr`) so that the state
visible after an exception is part of the model.
-/

namespace Nevergrad

/-! ### Decimal strings: Python `str(k)` and `int(key)`

`ParametersList.__init__` keys its children by `str(k)` and the `value`
getter re-sorts by `int(key)`; we embed both functions and prove the
round trip `strToNat (natToStr n) = n`. -/

/-- The ASCII digit character for `d` (`0`–`9` for `d < 10`). -/
def digitChar (d : Nat) : Char := Char.ofNat (48 + d)

/-- Decimal digits of `n`, most significant first, driven by a fuel
argument so that the recursion is structural (`fuel > n` makes the result
fuel-independent). -/
def natDigitsAux (fuel n : Nat) : List Char :=
  match fuel with
  | 0 => []
  | fuel + 1 =>
      if n < 10 then [digitChar n]
      else natDigitsAux fuel (n / 10) ++ [digitChar (n % 10)]

/-- Decimal digit list of `n`, most significant first — the characters of
Python's `str(n)` for a natural number `n`. -/
def natDigits (n : Nat) : List Char := natDigitsAux (n + 1) n

/-- Python `str(n)` for a natural number `n`. -/
def natToStr (n : Nat) : String := String.mk (natDigits n)

/-- Numeric value of an ASCII digit character. -/
def charToDigit (c : Char) : Nat := c.toNat - 48

/-- Python `int(s)` on a canonical digit string (the only keys this core
ever builds): fold the decimal digits. -/
def strToNat (s : String) : Nat :=
  s.data.foldl (fun a c => 10 * a + charToDigit c) 0

theorem charToDigit_digitChar (d : Nat) (h : d < 10) :
    charToDigit (digitChar d) = d := by
  interval_cases d <;> decide

theorem digitsVal_append (l : List Char) (c : Char) :
    List.foldl (fun a c => 10 * a + charToDigit c) 0 (l ++ [c]) =
      10 * List.foldl (fun a c => 10 * a + charToDigit c) 0 l + charToDigit c := by
  rw [List.foldl_append]
  rfl

theorem digitsVal_natDigitsAux (fuel : Nat) :
    ∀ n, n < fuel →
      List.foldl (fun a c => 10 * a + charToDigit c) 0 (natDigitsAux fuel n) = n := by
  induction fuel with
  | zero => intro n hn; omega
  | succ fuel ih =>
    intro n hn
    rw [natDigitsAux]
    by_cases h : n < 10
    · simp only [h, if_pos]
      show 10 * 0 + charToDigit (digitChar n) = n
      rw [charToDigit_digitChar n h]
      omega
    · simp only [h, if_neg, not_false_iff]
      rw [digitsVal_append]
      have hdiv : n / 10 < fuel := by
        have h1 : n / 10 < n := Nat.div_lt_self (by omega) (by omega)
        omega
      rw [ih (n / 10) hdiv, charToDigit_digitChar (n % 10) (Nat.mod_lt n (by omega))]
      omega

/-- `int(str(n)) = n`: the decimal round trip. -/
theorem strToNat_natToStr (n : Nat) : strToNat (natToStr n) = n := by
  rw [natToStr, strToNat]
  exact digitsVal_natDigitsAux (n + 1) n (by omega)

theorem natToStr_injective : Function.Injective natToStr :=
  Function.LeftInverse.injective strToNat_natToStr

/-! ### Python-level values and errors -/

/-- A Python object that may be handed to `Array.value`'s setter: either a
`np.ndarray` (shape plus flat data) or some non-array object, of which only
the type name is relevant (it appears in the `TypeError` message). -/
inductive NpValue where
  | ndarray (shape : List Nat) (data : List ℚ)
  | nonArray (typeName : String)
deriving DecidableEq, Repr

/-- The Python exception kinds raised by this core. -/
inductive PyErr where
  | typeError (msg : String)
  | valueError (msg : String)
  | keyError (key : String)
deriving DecidableEq, Repr

/-! ### `Array` (src/nevergrad/instrumentation/parameter.py, lines 9–64)

The ndarray `self._value` is stored flat (`List ℚ`) with its logical shape
in the `shape` field; every operation of this class either keeps the shape
(`with_std_data` reshapes to `self.value.shape`, the setter rejects other
shapes) or reads it, so the flat representation is lossless.  Exceptional
operations return the post-state paired with `Option PyErr` (Python raises
before any assignment, so the state component on an error is the unchanged
receiver). -/

structure Array where
  shape : List Nat
  sigma : ℚ
  distribution : String
  recombination : String
  _value : List ℚ
deriving DecidableEq, Repr

/-- `Array.__init__`: stores the hyper-parameters (unvalidated — the only
check is `assert not isinstance(shape, Parameter)`) and sets
`self._value = np.zeros(shape)`. -/
def Array.init (shape : List Nat) (sigma : ℚ) (distribution : String)
    (recombination : String) : Array :=
  { shape := shape, sigma := sigma, distribution := distribution,
    recombination := recombination, _value := List.replicate shape.prod 0 }

/-- Modelled from the spec: `Parameter._get_parameter_value` lives in
`core3.py`, which is not under `src/`; per the spec (§3) hyper-parameters
are stored as child parameters and this returns the current value of the
named one — for the fixed-scalar `sigma` used here, the stored rational. -/
def Array._get_parameter_value_sigma (a : Array) : ℚ := a.sigma

/-- Modelled from the spec: `Parameter._get_parameter_value` for the
`recombination` hyper-parameter — the stored policy tag string. -/
def Array._get_parameter_value_recombination (a : Array) : String :=
  a.recombination

/-- The `value` property getter: `return self._value` — the stored ndarray,
returned as is (its shape is the declared shape, which every write
preserves). -/
def Array.value (a : Array) : NpValue := NpValue.ndarray a.shape a._value

/-- The `value` property setter: `TypeError` on a non-ndarray, `ValueError`
on a shape mismatch (`self._value.shape != value.shape`; the stored value's
shape is the declared shape), otherwise `self._value = value`. -/
def Array.value_set (a : Array) (v : NpValue) : Array × Option PyErr :=
  match v with
  | NpValue.nonArray t =>
      (a, some (PyErr.typeError ("Received a " ++ t ++ " in place of a np.ndarray")))
  | NpValue.ndarray sh d =>
      if a.shape = sh then ({ a with _value := d }, none)
      else (a, some (PyErr.valueError
        ("Cannot set array of shape " ++ toString a.shape ++
          " with value of shape " ++ toString sh)))

/-- `with_std_data`: `self._value = (sigma * data).reshape(self.value.shape)`.
The `deterministic` argument is accepted and unused (the source carries a
`pylint: disable=unused-argument`).  `reshape` fails unless the data length
equals the product of the target shape. -/
def Array.with_std_data (a : Array) (data : List ℚ) (deterministic : Bool) :
    Array × Option PyErr :=
  if data.length = a.shape.prod then
    ({ a with _value := data.map (fun x => a._get_parameter_value_sigma * x) }, none)
  else
    (a, some (PyErr.valueError "cannot reshape array"))

/-- `to_std_data`: `(self._value / sigma).ravel()`. -/
def Array.to_std_data (a : Array) : List ℚ :=
  a._value.map (fun x => x / a._get_parameter_value_sigma)

/-- `spawn_child`: `super().spawn_child()` builds a node with the same
topology and hyper-parameters (core3, not under `src/`; spec §3), then
`child._value = self.value` copies the current value in.  As a value this
is the identity; the fact that the ndarray object itself is shared (a
reference assignment, not a copy) is modelled separately by the heap
embedding below. -/
def Array.spawn_child (a : Array) : Array := a

/-- `np.mean(vs, axis=0)`: the elementwise arithmetic mean of a list of
equal-length vectors (shape taken from the first entry). -/
def npMeanAxis0 (vs : List (List ℚ)) : List ℚ :=
  match vs with
  | [] => []
  | v :: _ =>
      (List.range v.length).map
        (fun i => ((vs.map (fun w => w.getD i 0)).sum) / (vs.length : ℚ))

/-- `recombine`: under the `"average"` policy, `with_std_data` of the
elementwise mean of all participants' `to_std_data`; any other policy tag
raises `ValueError(f'Unknown recombination "{recomb}"')`. -/
def Array.recombine (a : Array) (others : List Array) : Array × Option PyErr :=
  if a._get_parameter_value_recombination = "average" then
    a.with_std_data (npMeanAxis0 ((a :: others).map Array.to_std_data)) true
  else
    (a, some (PyErr.valueError
      ("Unknown recombination \x22" ++ a._get_parameter_value_recombination ++ "\x22")))

/-- Well-formedness maintained by every `Array` operation: the flat storage
has exactly as many entries as the declared shape holds. -/
def Array.WF (a : Array) : Prop := a._value.length = a.shape.prod

/-! ### Theorems about `Array` -/

/-- C10: `Array.with_std_data` ignores its `deterministic` flag — the value
reconstructed from a flat vector is identical for `deterministic = true`
and `deterministic = false`. -/
theorem Array_with_std_data_deterministic_flag (a : Array) (d : List ℚ) :
    a.with_std_data d true = a.with_std_data d false := rfl

/-- C1 (counterexample): the standardized-data round trip fails for an
`Array` whose `sigma` is `0` — `with_std_data([1])` on
`Array(shape=(1,), sigma=0)` succeeds and stores `0 * [1] = [0]`, but
`to_std_data()` then returns `[0/0] = [0] ≠ [1]` (in float arithmetic,
`nan`), refuting the claim's "for every Array". -/
theorem Array_std_round_trip_cex :
    ((Array.init [1] 0 "linear" "average").with_std_data [1] true).2 = none ∧
    ((Array.init [1] 0 "linear" "average").with_std_data [1] true).1.to_std_data ≠ [1] := by
  constructor
  · norm_num [Array.init, Array.with_std_data]
  · norm_num [Array.init, Array.with_std_data, Array.to_std_data,
      Array._get_parameter_value_sigma]

/-- C1 (amended): for every `Array` with nonzero `sigma` and every flat
vector `d` whose length is the product of the shape,
`to_std_data(with_std_data(d)) = d` exactly, and
`with_std_data(to_std_data())` leaves the stored value unchanged; neither
call raises. -/
theorem Array_std_data_round_trip (a : Array) (d : List ℚ) (det det2 : Bool)
    (hlen : d.length = a.shape.prod) (hs : a.sigma ≠ 0) (hwf : a.WF) :
    (a.with_std_data d det).2 = none ∧
    (a.with_std_data d det).1.to_std_data = d ∧
    (a.with_std_data a.to_std_data det2).2 = none ∧
    (a.with_std_data a.to_std_data det2).1._value = a._value := by
  have hlen2 : a.to_std_data.length = a.shape.prod := by
    simpa [Array.to_std_data] using hwf
  unfold Array.with_std_data Array.to_std_data Array._get_parameter_value_sigma
  unfold Array.to_std_data Array._get_parameter_value_sigma at hlen2
  rw [if_pos hlen, if_pos hlen2]
  have hback : ((fun x => x / a.sigma) ∘ fun x => a.sigma * x) = id :=
    funext fun x => mul_div_cancel_left₀ x hs
  have hforth : ((fun x => a.sigma * x) ∘ fun x => x / a.sigma) = id :=
    funext fun x => by
      show a.sigma * (x / a.sigma) = x
      rw [mul_comm]
      exact div_mul_cancel₀ x hs
  refine ⟨rfl, ?_, rfl, ?_⟩
  · show (d.map fun x => a.sigma * x).map (fun x => x / a.sigma) = d
    rw [List.map_map, hback, List.map_id]
  · show (a._value.map fun x => x / a.sigma).map (fun x => a.sigma * x) = a._value
    rw [List.map_map, hforth, List.map_id]

/-- C1 (witness): the amended round trip at `Array(shape=(2,), sigma=3)`
with `d = [1, 2]`. -/
theorem Array_std_data_round_trip_witness :
    (([1, 2] : List ℚ).length = (Array.init [2] 3 "linear" "average").shape.prod ∧
      (Array.init [2] 3 "linear" "average").sigma ≠ 0 ∧
      (Array.init [2] 3 "linear" "average").WF) ∧
    ((Array.init [2] 3 "linear" "average").with_std_data [1, 2] true).1.to_std_data = [1, 2] :=
  ⟨⟨by norm_num [Array.init], by norm_num [Array.init], by norm_num [Array.init, Array.WF]⟩,
    (Array_std_data_round_trip (Array.init [2] 3 "linear" "average") [1, 2] true false
      (by norm_num [Array.init]) (by norm_num [Array.init])
      (by norm_num [Array.init, Array.WF])).2.1⟩

/-- C4 (counterexample): `Array(shape=(3,), sigma=2.0)` set to `[2, 4, 6]`
does **not** return `[1, 1, 3]` from `to_std_data()` (it returns
`[2, 4, 6] / 2 = [1, 2, 3]`), and `with_std_data([1, 1, 3])` does **not**
restore `[2, 4, 6]` (it stores `2 * [1, 1, 3] = [2, 2, 6]`). -/
theorem Array_concrete_scenario_cex :
    (((Array.init [3] 2 "linear" "average").value_set
        (NpValue.ndarray [3] [2, 4, 6])).1.to_std_data ≠ [1, 1, 3]) ∧
    ((((Array.init [3] 2 "linear" "average").value_set
        (NpValue.ndarray [3] [2, 4, 6])).1.with_std_data [1, 1, 3] true).1._value ≠ [2, 4, 6]) := by
  constructor
  · norm_num [Array.init, Array.value_set, Array.to_std_data,
      Array._get_parameter_value_sigma]
  · norm_num [Array.init, Array.value_set, Array.with_std_data,
      Array._get_parameter_value_sigma]

/-- C4 (amended): `Array(shape=(3,), sigma=2.0)` set to `[2, 4, 6]` yields
`to_std_data() = [1, 2, 3]`, and `with_std_data([1, 2, 3])` restores
`value = [2, 4, 6]`; no call raises. -/
theorem Array_concrete_scenario :
    (((Array.init [3] 2 "linear" "average").value_set
        (NpValue.ndarray [3] [2, 4, 6])).2 = none) ∧
    (((Array.init [3] 2 "linear" "average").value_set
        (NpValue.ndarray [3] [2, 4, 6])).1.to_std_data = [1, 2, 3]) ∧
    ((((Array.init [3] 2 "linear" "average").value_set
        (NpValue.ndarray [3] [2, 4, 6])).1.with_std_data [1, 2, 3] true).2 = none) ∧
    ((((Array.init [3] 2 "linear" "average").value_set
        (NpValue.ndarray [3] [2, 4, 6])).1.with_std_data [1, 2, 3] true).1.value =
      NpValue.ndarray [3] [2, 4, 6]) := by
  refine ⟨?_, ?_, ?_, ?_⟩ <;>
    norm_num [Array.init, Array.value_set, Array.to_std_data, Array.with_std_data,
      Array.value, Array._get_parameter_value_sigma]

/-- C6: constructing an `Array` with an unrecognized `recombination` tag
succeeds and stores the tag unvalidated; `recombine` then leaves the node
unchanged and raises `ValueError(f'Unknown recombination "{tag}"')`, a
message naming the tag. -/
theorem Array_recombine_unknown_policy (shape : List Nat) (sigma : ℚ)
    (dist tag : String) (others : List Array) (h : tag ≠ "average") :
    (Array.init shape sigma dist tag).recombination = tag ∧
    ((Array.init shape sigma dist tag).recombine others).1 =
      Array.init shape sigma dist tag ∧
    ((Array.init shape sigma dist tag).recombine others).2 =
      some (PyErr.valueError ("Unknown recombination \x22" ++ tag ++ "\x22")) := by
  refine ⟨rfl, ?_, ?_⟩ <;>
    simp [Array.recombine, Array._get_parameter_value_recombination, Array.init, h]

/-- C6 (witness): the unknown-policy error at tag `"crossover"`. -/
theorem Array_recombine_unknown_policy_witness :
    ("crossover" ≠ "average") ∧
    ((Array.init [2] 1 "linear" "crossover").recombine []).2 =
      some (PyErr.valueError ("Unknown recombination \x22crossover\x22")) :=
  ⟨by decide,
    (Array_recombine_unknown_policy [2] 1 "linear" "crossover" [] (by decide)).2.2⟩

/-- C8: the `Array.value` setter raises `TypeError` on a non-ndarray and
`ValueError` on a shape mismatch, leaving the stored value unchanged in
both cases; a matching-shape assignment succeeds and the getter then
returns exactly the assigned array — and the getter never rescales by
`sigma` (its output is unchanged under any replacement of `sigma`). -/
theorem Array_value_setter_validation (a : Array) (t : String) (sh : List Nat)
    (d d2 : List ℚ) (hsh : sh ≠ a.shape) :
    a.value_set (NpValue.nonArray t) =
      (a, some (PyErr.typeError ("Received a " ++ t ++ " in place of a np.ndarray"))) ∧
    a.value_set (NpValue.ndarray sh d) =
      (a, some (PyErr.valueError
        ("Cannot set array of shape " ++ toString a.shape ++
          " with value of shape " ++ toString sh))) ∧
    (a.value_set (NpValue.ndarray a.shape d2)).2 = none ∧
    (a.value_set (NpValue.ndarray a.shape d2)).1.value = NpValue.ndarray a.shape d2 ∧
    (∀ s2 : ℚ, ({ a with sigma := s2 } : Array).value = NpValue.ndarray a.shape a._value) := by
  have hsh' : a.shape ≠ sh := fun hEq => hsh hEq.symm
  refine ⟨rfl, ?_, ?_, ?_, fun s2 => rfl⟩
  · simp [Array.value_set, hsh']
  · simp [Array.value_set]
  · simp [Array.value_set, Array.value]

/-- `getD` of a list all of whose entries are `0` is `0` (also out of
range, where it returns the default `0`). -/
theorem getD_eq_zero_of_all_zero (l : List ℚ) (h : ∀ x ∈ l, x = 0) (i : Nat) :
    l.getD i 0 = 0 := by
  induction l generalizing i with
  | nil => simp
  | cons y ys ih =>
    cases i with
    | zero => simpa using h y (by simp)
    | succ j => simpa using ih (fun x hx => h x (by simp [hx])) j

/-- C5: for an `Array` under the `"average"` recombination policy,
`recombine(*others)` (with `others` of the same shape and sigma) succeeds
and the standardized data of the result is, entry by entry, the arithmetic
mean of the participants' standardized-data vectors taken before the
call. -/
theorem Array_recombine_average (a : Array) (others : List Array)
    (hrec : a.recombination = "average") (hwf : a.WF)
    (hoth : ∀ p ∈ others, p.shape = a.shape ∧ p.sigma = a.sigma ∧ p.WF) :
    (a.recombine others).2 = none ∧
    ∀ i, i < a.shape.prod →
      (a.recombine others).1.to_std_data.getD i 0 =
        (((a :: others).map fun p => p.to_std_data.getD i 0).sum) /
          ((a :: others).length : ℚ) := by
  have hstdlen : a.to_std_data.length = a.shape.prod := by
    simpa [Array.to_std_data] using hwf
  have hmean : npMeanAxis0 ((a :: others).map Array.to_std_data) =
      (List.range a.to_std_data.length).map
        (fun i =>
          ((((a :: others).map Array.to_std_data).map fun w => w.getD i 0).sum) /
            ((((a :: others).map Array.to_std_data).length : ℚ))) := rfl
  have hmlen : (npMeanAxis0 ((a :: others).map Array.to_std_data)).length = a.shape.prod := by
    rw [hmean, List.length_map, List.length_range, hstdlen]
  have hrecomb : a.recombine others =
      ({ a with _value := List.map (fun x => a.sigma * x) (npMeanAxis0 ((a :: others).map Array.to_std_data)) }, none) := by
    rw [Array.recombine, Array._get_parameter_value_recombination, hrec, if_pos rfl,
      Array.with_std_data, if_pos hmlen]
    simp [Array._get_parameter_value_sigma, hrec]
  refine ⟨by rw [hrecomb], ?_⟩
  intro i hi
  rw [hrecomb]
  show (((npMeanAxis0 ((a :: others).map Array.to_std_data)).map
      (fun x => a.sigma * x)).map (fun x => x / a.sigma)).getD i 0 = _
  rw [List.getD_eq_getElem?_getD, List.getElem?_map, List.getElem?_map, hmean,
    List.getElem?_map, List.getElem?_range (hstdlen ▸ hi)]
  show a.sigma *
      ((((a :: others).map Array.to_std_data).map fun w => w.getD i 0).sum /
        ((((a :: others).map Array.to_std_data).length : ℚ))) / a.sigma = _
  rw [List.map_map, List.length_map]
  show a.sigma *
      ((((a :: others).map fun p => p.to_std_data.getD i 0).sum) /
        ((a :: others).length : ℚ)) / a.sigma = _
  by_cases hs : a.sigma = 0
  · have hS : (((a :: others).map fun p => p.to_std_data.getD i 0).sum) = 0 := by
      refine List.sum_eq_zero ?_
      intro x hx
      obtain ⟨p, hp, rfl⟩ := List.mem_map.1 hx
      have hp0 : p.sigma = 0 := by
        rcases List.mem_cons.1 hp with h1 | h1
        · rw [h1, hs]
        · rw [(hoth p h1).2.1, hs]
      refine getD_eq_zero_of_all_zero _ ?_ i
      intro x hx2
      rw [Array.to_std_data] at hx2
      obtain ⟨y, _, rfl⟩ := List.mem_map.1 hx2
      simp [Array._get_parameter_value_sigma, hp0]
    rw [hS]
    simp
  · exact mul_div_cancel_left₀ _ hs

/-- C5 (witness): averaging `Array(shape=(1,), sigma=2)` holding `[0]` with
one other holding `[4]`: the standardized data are `[0]` and `[2]`, and the
recombined node's standardized data is `[1]`. -/
theorem Array_recombine_average_witness :
    ((Array.init [1] 2 "linear" "average").recombine
      [((Array.init [1] 2 "linear" "average").value_set (NpValue.ndarray [1] [4])).1]).2 = none ∧
    ((Array.init [1] 2 "linear" "average").recombine
      [((Array.init [1] 2 "linear" "average").value_set (NpValue.ndarray [1] [4])).1]).1.to_std_data.getD 0 0 = 1 := by
  have h := Array_recombine_average (Array.init [1] 2 "linear" "average")
    [((Array.init [1] 2 "linear" "average").value_set (NpValue.ndarray [1] [4])).1]
    rfl (by norm_num [Array.WF, Array.init])
    (by
      intro p hp
      rw [List.mem_singleton] at hp
      subst hp
      refine ⟨?_, ?_, ?_⟩ <;>
        norm_num [Array.WF, Array.init, Array.value_set])
  refine ⟨h.1, ?_⟩
  rw [h.2 0 (by norm_num [Array.init])]
  norm_num [Array.to_std_data, Array._get_parameter_value_sigma, Array.init,
    Array.value_set]

/-- C8 (witness): the setter validation at `Array(shape=(2,))`, a string
input, a shape-`(3,)` input, and a successful `[5, 7]` assignment. -/
theorem Array_value_setter_validation_witness :
    ([3] ≠ (Array.init [2] 1 "linear" "average").shape) ∧
    ((Array.init [2] 1 "linear" "average").value_set
        (NpValue.ndarray [2] [5, 7])).1.value = NpValue.ndarray [2] [5, 7] :=
  ⟨by norm_num [Array.init],
    (Array_value_setter_validation (Array.init [2] 1 "linear" "average") "str" [3]
      [0, 0, 0] [5, 7] (by norm_num [Array.init])).2.2.2.1⟩

/-! ### `ParametersList` (src/nevergrad/instrumentation/parameter.py, 67–88)
and `Tuple` (src/nevergrad/parametrization/container.py, 17–52)

Both containers key their children by `str(k)` for the 0-based position
`k` and assemble `value` by sorting the stored items by `int(key)`
(`sorted(self._parameters.items(), key=lambda x: int(x[0]))`); the
embedding below is written once, over a generic child-payload type. -/

/-- A child slot of a container: either a `Parameter` node (whose `.value`
is read and written through the node) or a raw non-Parameter constant
stored as is (`isinstance(p, Parameter)` dispatch in the source). -/
inductive PEntry (α : Type) where
  | param (value : α)
  | const (value : α)
deriving DecidableEq, Repr

/-- `p.value if isinstance(p, Parameter) else p`. -/
def PEntry.currentValue {α : Type} : PEntry α → α
  | PEntry.param v => v
  | PEntry.const v => v

/-- Modelled from the spec: `ParametersDict._parameters` is declared in
`core3.py`, which is not under `src/`; per the spec (§3) it is an
insertion-ordered key-to-child mapping, embedded as an association list in
storage order. -/
structure ParametersList (α : Type) where
  _parameters : List (String × PEntry α)
deriving DecidableEq, Repr

/-- `{str(k): p for k, p in enumerate(parameters)}` starting at `k`. -/
def enumFrom {α : Type} (k : Nat) : List (PEntry α) → List (String × PEntry α)
  | [] => []
  | p :: rest => (natToStr k, p) :: enumFrom (k + 1) rest

/-- `ParametersList.__init__`: children keyed by the string form of their
0-based position, in positional order. -/
def ParametersList.init {α : Type} (parameters : List (PEntry α)) : ParametersList α :=
  ⟨enumFrom 0 parameters⟩

/-- The `value` getter: sort the stored items by `int(key)` (Python's
`sorted` — a stable merge sort) and read each child's current value. -/
def ParametersList.value {α : Type} (pl : ParametersList α) : List α :=
  (pl._parameters.mergeSort
      (fun x y => decide (strToNat x.1 ≤ strToNat y.1))).map
    (fun x => x.2.currentValue)

/-- Python dict read `self._parameters[key]` on an association list. -/
def dictLookup {α : Type} (key : String) : List (String × PEntry α) → Option (PEntry α)
  | [] => none
  | (k, v) :: rest => if k = key then some v else dictLookup key rest

/-- Python dict write `self._parameters[key] = e` (replaces in place,
keeping the insertion order). -/
def dictSet {α : Type} (l : List (String × PEntry α)) (key : String) (e : PEntry α) :
    List (String × PEntry α) :=
  l.map (fun kv => if kv.1 = key then (key, e) else kv)

/-- Loop body of the `value` setter: `for k, val in enumerate(value)`,
look up `str(k)` (a missing key is a `KeyError`, aborting with the
mutations made so far kept), then either set the child Parameter's value
or replace the stored constant. -/
def valueSetLoop {α : Type} (params : List (String × PEntry α)) (k : Nat) :
    List α → List (String × PEntry α) × Option PyErr
  | [] => (params, none)
  | v :: rest =>
    match dictLookup (natToStr k) params with
    | none => (params, some (PyErr.keyError (natToStr k)))
    | some (PEntry.param _) =>
        valueSetLoop (dictSet params (natToStr k) (PEntry.param v)) (k + 1) rest
    | some (PEntry.const _) =>
        valueSetLoop (dictSet params (natToStr k) (PEntry.const v)) (k + 1) rest

/-- The `value` setter (`assert isinstance(value, list)` then the loop —
note: no length check in the source). -/
def ParametersList.value_set {α : Type} (pl : ParametersList α) (vals : List α) :
    ParametersList α × Option PyErr :=
  (⟨(valueSetLoop pl._parameters 0 vals).1⟩, (valueSetLoop pl._parameters 0 vals).2)

/-- The entries after assigning `vals` positionally: the first
`vals.length` children take the new values (keeping their
Parameter/constant nature), the rest are untouched. -/
def updatedEntries {α : Type} : List (PEntry α) → List α → List (PEntry α)
  | ps, [] => ps
  | [], _ :: _ => []
  | PEntry.param _ :: tail, v :: rest => PEntry.param v :: updatedEntries tail rest
  | PEntry.const _ :: tail, v :: rest => PEntry.const v :: updatedEntries tail rest

/-! ### Theorems about the containers -/

theorem mem_enumFrom {α : Type} {x : String × PEntry α} {k : Nat} {ps : List (PEntry α)}
    (hx : x ∈ enumFrom k ps) :
    ∃ i, ∃ h : i < ps.length, x = (natToStr (k + i), ps.get ⟨i, h⟩) := by
  induction ps generalizing k with
  | nil => simp [enumFrom] at hx
  | cons p tail ih =>
    rw [enumFrom] at hx
    rcases List.mem_cons.1 hx with h1 | h1
    · exact ⟨0, by simp, by simpa using h1⟩
    · obtain ⟨i, hi, hEq⟩ := ih h1
      have hk : k + 1 + i = k + (i + 1) := by omega
      refine ⟨i + 1, by simpa using hi, ?_⟩
      rw [← hk]
      exact hEq

theorem enumFrom_pairwise {α : Type} (k : Nat) (ps : List (PEntry α)) :
    List.Pairwise (fun a b : String × PEntry α => strToNat a.1 < strToNat b.1)
      (enumFrom k ps) := by
  induction ps generalizing k with
  | nil => exact List.Pairwise.nil
  | cons p tail ih =>
    rw [enumFrom]
    refine List.Pairwise.cons ?_ (ih (k + 1))
    intro y hy
    obtain ⟨i, hi, rfl⟩ := mem_enumFrom hy
    rw [strToNat_natToStr, strToNat_natToStr]
    omega

theorem enumFrom_map_value {α : Type} (k : Nat) (ps : List (PEntry α)) :
    (enumFrom k ps).map (fun x => x.2.currentValue) = ps.map PEntry.currentValue := by
  induction ps generalizing k with
  | nil => rfl
  | cons p tail ih =>
    rw [enumFrom, List.map_cons, List.map_cons, ih]

/-- Re-sorting by `int(key)` recovers the canonical positional order from
any storage order: merge-sorting any permutation of the canonical
`{str(k): child}` items by the numeric value of the key yields exactly the
canonical item list. -/
theorem mergeSort_of_perm_enumFrom {α : Type} (ps : List (PEntry α))
    (stored : List (String × PEntry α)) (hperm : stored.Perm (enumFrom 0 ps)) :
    stored.mergeSort (fun x y => decide (strToNat x.1 ≤ strToNat y.1)) = enumFrom 0 ps := by
  have htrans : ∀ a b c : String × PEntry α,
      decide (strToNat a.1 ≤ strToNat b.1) = true →
      decide (strToNat b.1 ≤ strToNat c.1) = true →
      decide (strToNat a.1 ≤ strToNat c.1) = true := by
    intro a b c hab hbc
    simp only [decide_eq_true_eq] at hab hbc ⊢
    omega
  have htotal : ∀ a b : String × PEntry α,
      (decide (strToNat a.1 ≤ strToNat b.1) || decide (strToNat b.1 ≤ strToNat a.1)) = true := by
    intro a b
    simpa using Nat.le_total (strToNat a.1) (strToNat b.1)
  have hsorted := List.sorted_mergeSort htrans htotal stored
  have hperm2 :
      (stored.mergeSort (fun x y => decide (strToNat x.1 ≤ strToNat y.1))).Perm
        (enumFrom 0 ps) :=
    (List.mergeSort_perm stored _).trans hperm
  have hp1 : List.Pairwise (fun a b : String × PEntry α => strToNat a.1 ≤ strToNat b.1)
      (stored.mergeSort (fun x y => decide (strToNat x.1 ≤ strToNat y.1))) :=
    hsorted.imp (fun h => by simpa using h)
  have hp2 : List.Pairwise (fun a b : String × PEntry α => strToNat a.1 ≤ strToNat b.1)
      (enumFrom 0 ps) :=
    (enumFrom_pairwise 0 ps).imp (fun h => Nat.le_of_lt h)
  have hanti : ∀ a b : String × PEntry α,
      a ∈ stored.mergeSort (fun x y => decide (strToNat x.1 ≤ strToNat y.1)) →
      b ∈ enumFrom 0 ps →
      strToNat a.1 ≤ strToNat b.1 → strToNat b.1 ≤ strToNat a.1 → a = b := by
    intro a b ha hb hab hba
    obtain ⟨i, hi, rfl⟩ := mem_enumFrom (hperm2.subset ha)
    obtain ⟨j, hj, rfl⟩ := mem_enumFrom hb
    rw [strToNat_natToStr, strToNat_natToStr] at hab hba
    have hij : i = j := by omega
    subst hij
    rfl
  exact List.Perm.eq_of_sorted hanti hp1 hp2 hperm2

/-- C2: a `ParametersList`/`Tuple` built from `k` constructor arguments
returns, for every internal storage order of the key-to-child mapping
(`stored` any permutation of the canonical one), the sequence of the
constructor arguments' current values — the `n`-th element of `value` is
the `n`-th constructor argument's value (child value for a Parameter, the
raw stored object otherwise), because value assembly always re-sorts by
the integer value of the key. -/
theorem container_positional_fidelity {α : Type} (ps : List (PEntry α))
    (stored : List (String × PEntry α))
    (hperm : stored.Perm (ParametersList.init ps)._parameters)
    (n : Nat) (hn : n < ps.length) :
    ParametersList.value ⟨stored⟩ = ps.map PEntry.currentValue ∧
    (ParametersList.value ⟨stored⟩)[n]? = some (ps[n].currentValue) := by
  have hval : ParametersList.value ⟨stored⟩ = ps.map PEntry.currentValue := by
    rw [ParametersList.value]
    show (stored.mergeSort _).map _ = _
    rw [mergeSort_of_perm_enumFrom ps stored hperm]
    exact enumFrom_map_value 0 ps
  refine ⟨hval, ?_⟩
  rw [hval, List.getElem?_map, List.getElem?_eq_getElem hn]
  rfl

/-- C2 (witness): a two-child container (a raw constant `5` and a
Parameter holding `7`) stored in reversed key order still assembles
`value = [5, 7]`. -/
theorem container_positional_fidelity_witness :
    ([(natToStr 1, PEntry.param (7 : ℚ)), (natToStr 0, PEntry.const 5)]).Perm
      (ParametersList.init [PEntry.const (5 : ℚ), PEntry.param 7])._parameters ∧
    ParametersList.value ⟨[(natToStr 1, PEntry.param (7 : ℚ)), (natToStr 0, PEntry.const 5)]⟩ =
      [5, 7] := by
  have hperm :
      ([(natToStr 1, PEntry.param (7 : ℚ)), (natToStr 0, PEntry.const 5)]).Perm
        (ParametersList.init [PEntry.const (5 : ℚ), PEntry.param 7])._parameters := by
    show ([(natToStr 1, PEntry.param (7 : ℚ)), (natToStr 0, PEntry.const 5)]).Perm
      [(natToStr 0, PEntry.const 5), (natToStr 1, PEntry.param 7)]
    exact List.Perm.swap _ _ _
  refine ⟨hperm, ?_⟩
  have h := (container_positional_fidelity [PEntry.const (5 : ℚ), PEntry.param 7]
    [(natToStr 1, PEntry.param (7 : ℚ)), (natToStr 0, PEntry.const 5)] hperm 0
    (by norm_num)).1
  rw [h]
  rfl

theorem dictLookup_eq_none {α : Type} (key : String) (l : List (String × PEntry α))
    (h : ∀ x ∈ l, x.1 ≠ key) : dictLookup key l = none := by
  induction l with
  | nil => rfl
  | cons y ys ih =>
    obtain ⟨ky, vy⟩ := y
    rw [dictLookup, if_neg (h (ky, vy) (by simp))]
    exact ih (fun x hx => h x (by simp [hx]))

theorem dictLookup_append_of_not_mem {α : Type} (key : String)
    (pre l : List (String × PEntry α)) (h : ∀ x ∈ pre, x.1 ≠ key) :
    dictLookup key (pre ++ l) = dictLookup key l := by
  induction pre with
  | nil => rfl
  | cons y ys ih =>
    obtain ⟨ky, vy⟩ := y
    rw [List.cons_append, dictLookup, if_neg (h (ky, vy) (by simp))]
    exact ih (fun x hx => h x (by simp [hx]))

theorem dictSet_eq_of_not_mem {α : Type} (l : List (String × PEntry α)) (key : String)
    (e : PEntry α) (h : ∀ x ∈ l, x.1 ≠ key) : dictSet l key e = l := by
  rw [dictSet]
  have h2 : ∀ x ∈ l, (if x.1 = key then (key, e) else x) = x :=
    fun x hx => if_neg (h x hx)
  rw [List.map_congr_left h2]
  exact List.map_id l

theorem dictSet_append {α : Type} (l1 l2 : List (String × PEntry α)) (key : String)
    (e : PEntry α) : dictSet (l1 ++ l2) key e = dictSet l1 key e ++ dictSet l2 key e := by
  rw [dictSet, dictSet, dictSet, List.map_append]

theorem dictSet_cons_hit {α : Type} (key : String) (p : PEntry α)
    (l : List (String × PEntry α)) (e : PEntry α) :
    dictSet ((key, p) :: l) key e = (key, e) :: dictSet l key e := by
  simp [dictSet]

theorem updatedEntries_nil {α : Type} (ps : List (PEntry α)) :
    updatedEntries ps [] = ps := by
  cases ps with
  | nil => rfl
  | cons p tail => cases p <;> rfl

/-- The setter loop on a canonical child dictionary (prefixed by
already-processed entries with keys below `k`): with enough children it
assigns all of `vals` positionally and reports no error; with too few it
assigns every existing child and then aborts with a `KeyError` naming the
first missing key — in neither case is the length validated up front. -/
theorem valueSetLoop_enumFrom {α : Type} (vals : List α) :
    ∀ (ps : List (PEntry α)) (k : Nat) (pre : List (String × PEntry α)),
      (∀ x ∈ pre, ∃ j, j < k ∧ x.1 = natToStr j) →
      valueSetLoop (pre ++ enumFrom k ps) k vals =
        if vals.length ≤ ps.length then
          (pre ++ enumFrom k (updatedEntries ps vals), none)
        else
          (pre ++ enumFrom k (updatedEntries ps (vals.take ps.length)),
            some (PyErr.keyError (natToStr (k + ps.length)))) := by
  induction vals with
  | nil =>
    intro ps k pre hpre
    rw [valueSetLoop, if_pos (show List.length ([] : List α) ≤ ps.length by simp),
      updatedEntries_nil]
  | cons v rest ih =>
    intro ps k pre hpre
    have hpre' : ∀ x ∈ pre, x.1 ≠ natToStr k := by
      intro x hx
      obtain ⟨j, hj, hEq⟩ := hpre x hx
      rw [hEq]
      intro hc
      have := natToStr_injective hc
      omega
    cases ps with
    | nil =>
      have hnone : dictLookup (natToStr k) (pre ++ enumFrom k ([] : List (PEntry α))) = none := by
        rw [show enumFrom k ([] : List (PEntry α)) = [] from rfl, List.append_nil]
        exact dictLookup_eq_none _ _ hpre'
      rw [if_neg (by simp)]
      simp only [valueSetLoop, hnone]
      simp [updatedEntries, enumFrom]
    | cons p tail =>
      have htail : ∀ x ∈ enumFrom (k + 1) tail, x.1 ≠ natToStr k := by
        intro x hx
        obtain ⟨i, hi, rfl⟩ := mem_enumFrom hx
        intro hc
        have := natToStr_injective hc
        omega
      have hlook : dictLookup (natToStr k) (pre ++ enumFrom k (p :: tail)) = some p := by
        rw [dictLookup_append_of_not_mem _ _ _ hpre', enumFrom, dictLookup, if_pos rfl]
      have hset : ∀ e : PEntry α,
          dictSet (pre ++ enumFrom k (p :: tail)) (natToStr k) e =
            (pre ++ [(natToStr k, e)]) ++ enumFrom (k + 1) tail := by
        intro e
        rw [enumFrom, dictSet_append, dictSet_eq_of_not_mem pre _ _ hpre',
          dictSet_cons_hit, dictSet_eq_of_not_mem _ _ _ htail]
        simp [List.append_assoc]
      have hpre2 : ∀ e : PEntry α, ∀ x ∈ pre ++ [(natToStr k, e)], ∃ j, j < k + 1 ∧ x.1 = natToStr j := by
        intro e x hx
        rcases List.mem_append.1 hx with h1 | h1
        · obtain ⟨j, hj, hEq⟩ := hpre x h1
          exact ⟨j, by omega, hEq⟩
        · rw [List.mem_singleton] at h1
          subst h1
          exact ⟨k, by omega, rfl⟩
      have hk1 : k + 1 + tail.length = k + (p :: tail).length := by
        simp [List.length_cons]
        omega
      cases p with
      | param w =>
        simp only [valueSetLoop, hlook]
        rw [hset (PEntry.param v), ih tail (k + 1) (pre ++ [(natToStr k, PEntry.param v)])
          (hpre2 (PEntry.param v))]
        by_cases hc : rest.length ≤ tail.length
        · rw [if_pos hc, if_pos (by simpa using hc)]
          simp [updatedEntries, enumFrom, List.append_assoc]
        · rw [if_neg hc, if_neg (by simpa using hc), hk1]
          simp [updatedEntries, enumFrom, List.append_assoc, List.take_cons]
      | const w =>
        simp only [valueSetLoop, hlook]
        rw [hset (PEntry.const v), ih tail (k + 1) (pre ++ [(natToStr k, PEntry.const v)])
          (hpre2 (PEntry.const v))]
        by_cases hc : rest.length ≤ tail.length
        · rw [if_pos hc, if_pos (by simpa using hc)]
          simp [updatedEntries, enumFrom, List.append_assoc]
        · rw [if_neg hc, if_neg (by simpa using hc), hk1]
          simp [updatedEntries, enumFrom, List.append_assoc, List.take_cons]

theorem updatedEntries_map_value {α : Type} :
    ∀ (vals : List α) (ps : List (PEntry α)), vals.length ≤ ps.length →
      (updatedEntries ps vals).map PEntry.currentValue =
        vals ++ (ps.map PEntry.currentValue).drop vals.length := by
  intro vals
  induction vals with
  | nil => intro ps h; rw [updatedEntries_nil]; simp
  | cons v rest ih =>
    intro ps h
    cases ps with
    | nil => simp at h
    | cons p tail =>
      have h2 : rest.length ≤ tail.length := by simpa using h
      cases p <;>
        simp [updatedEntries, PEntry.currentValue, ih tail h2]

/-- The assembled `value` of a canonically keyed container is the
positional list of child values. -/
theorem value_enumFrom {α : Type} (qs : List (PEntry α)) :
    ParametersList.value ⟨enumFrom 0 qs⟩ = qs.map PEntry.currentValue := by
  rw [ParametersList.value]
  show (List.mergeSort _ _).map _ = _
  rw [mergeSort_of_perm_enumFrom qs _ (List.Perm.refl _)]
  exact enumFrom_map_value 0 qs

/-- C7 (counterexample): assigning a 1-element list to a 2-child
`ParametersList` does **not** fail — it silently sets the first child and
leaves the second untouched (`value` becomes `[9, 6]` from `[5, 6]`). -/
theorem ParametersList_value_set_length_mismatch_cex :
    (([9] : List ℚ).length ≠
      ([PEntry.const (5 : ℚ), PEntry.const 6] : List (PEntry ℚ)).length) ∧
    ((ParametersList.init [PEntry.const (5 : ℚ), PEntry.const 6]).value_set [9]).2 = none ∧
    ((ParametersList.init [PEntry.const (5 : ℚ), PEntry.const 6]).value_set [9]).1.value =
      [9, 6] ∧
    (ParametersList.init [PEntry.const (5 : ℚ), PEntry.const 6]).value = [5, 6] := by
  have hres : ((ParametersList.init [PEntry.const (5 : ℚ), PEntry.const 6]).value_set [9]).1 =
      ⟨enumFrom 0 [PEntry.const (9 : ℚ), PEntry.const 6]⟩ := by decide
  refine ⟨by decide, by decide, ?_, ?_⟩
  · rw [hres, value_enumFrom]
    rfl
  · show ParametersList.value ⟨enumFrom 0 [PEntry.const (5 : ℚ), PEntry.const 6]⟩ = [5, 6]
    rw [value_enumFrom]
    rfl

/-- C7 (amended): the `value` setter performs no length validation.  With
`len(vals) ≤` the number of children it never fails: it sets the first
`len(vals)` children positionally and leaves the rest unchanged.  With
`len(vals) >` the number of children it sets every existing child and then
raises a `KeyError` naming the first missing key `str(len(children))`. -/
theorem ParametersList_value_set_no_length_check {α : Type} (ps : List (PEntry α))
    (vals : List α) :
    (vals.length ≤ ps.length →
      ((ParametersList.init ps).value_set vals).2 = none ∧
      ((ParametersList.init ps).value_set vals).1.value =
        vals ++ (ps.map PEntry.currentValue).drop vals.length) ∧
    (ps.length < vals.length →
      ((ParametersList.init ps).value_set vals).2 =
        some (PyErr.keyError (natToStr ps.length))) := by
  have hloop := valueSetLoop_enumFrom vals ps 0 [] (by intro x hx; simp at hx)
  rw [List.nil_append] at hloop
  have h2 : (ParametersList.init ps).value_set vals =
      (⟨(valueSetLoop (enumFrom 0 ps) 0 vals).1⟩, (valueSetLoop (enumFrom 0 ps) 0 vals).2) :=
    rfl
  constructor
  · intro hle
    rw [h2, hloop, if_pos hle]
    refine ⟨rfl, ?_⟩
    show ParametersList.value ⟨enumFrom 0 (updatedEntries ps vals)⟩ = _
    rw [value_enumFrom]
    exact updatedEntries_map_value vals ps hle
  · intro hlt
    rw [h2, hloop, if_neg (by omega)]
    show some (PyErr.keyError (natToStr (0 + ps.length))) = _
    rw [Nat.zero_add]

/-- C7 (witness): the amended behaviour at a 2-child container — a
1-element assignment succeeds and partially applies, a 3-element
assignment raises `KeyError("2")`. -/
theorem ParametersList_value_set_no_length_check_witness :
    (([9] : List ℚ).length ≤ ([PEntry.const (5 : ℚ), PEntry.const 6]).length ∧
      ((ParametersList.init [PEntry.const (5 : ℚ), PEntry.const 6]).value_set [9]).1.value =
        [9, 6]) ∧
    (([PEntry.const (5 : ℚ), PEntry.const 6]).length < ([7, 8, 9] : List ℚ).length ∧
      ((ParametersList.init [PEntry.const (5 : ℚ), PEntry.const 6]).value_set [7, 8, 9]).2 =
        some (PyErr.keyError (natToStr 2))) := by
  constructor
  · refine ⟨by norm_num, ?_⟩
    have h := (ParametersList_value_set_no_length_check
      [PEntry.const (5 : ℚ), PEntry.const 6] [9]).1 (by norm_num)
    rw [h.2]
    rfl
  · refine ⟨by norm_num, ?_⟩
    exact (ParametersList_value_set_no_length_check
      [PEntry.const (5 : ℚ), PEntry.const 6] [7, 8, 9]).2 (by norm_num)

/-! ### Reference-level model of `Array.spawn_child` (C3)

`spawn_child` executes `child._value = self.value` — a Python *reference*
assignment: afterwards parent and child hold the same ndarray object.  To
talk about sharing we model ndarray objects in an explicit heap.  `value`
reassignment (the setter, or `with_std_data`, both of which execute
`self._value = <newly built ndarray>`) binds a freshly allocated object;
`arr[i] = q` element assignment mutates the pointed-to object in place. -/

structure NpHeap where
  cells : List (List ℚ)
deriving DecidableEq, Repr

/-- The Python `Array` object at reference level: `ref` is the identity of
the ndarray its `_value` attribute points to. -/
structure ArrayObj where
  shape : List Nat
  sigma : ℚ
  ref : Nat
deriving DecidableEq, Repr

def NpHeap.read (h : NpHeap) (r : Nat) : List ℚ := h.cells.getD r []

/-- The `value` getter: the contents of the ndarray `self._value` refers
to. -/
def ArrayObj.value_get (a : ArrayObj) (h : NpHeap) : List ℚ := h.read a.ref

/-- `spawn_child`: a new node object, but `child._value = self.value`
copies the *reference*, not the array. -/
def ArrayObj.spawn_child (a : ArrayObj) : ArrayObj := { a with ref := a.ref }

/-- In-place element mutation `node.value[i] = q`: writes through the
reference; no new ndarray is allocated. -/
def ArrayObj.setItem (a : ArrayObj) (h : NpHeap) (i : Nat) (q : ℚ) : NpHeap :=
  ⟨h.cells.set a.ref ((h.cells.getD a.ref []).set i q)⟩

/-- Value reassignment with a freshly built ndarray
(`self._value = value`): allocate the new object and repoint `_value`,
leaving the previously referenced object intact. -/
def ArrayObj.value_setFresh (a : ArrayObj) (h : NpHeap) (d : List ℚ) :
    NpHeap × ArrayObj :=
  (⟨h.cells ++ [d]⟩, { a with ref := h.cells.length })

/-- C3 (counterexample): `spawn_child` aliases the value storage.  With
the parent's ndarray `[1, 2]` on the heap, in-place mutation
`child.value[0] = 99` of the spawned child changes `parent.value` to
`[99, 2]` — the claim's "in-place element mutation of the returned array
leaves parent.value unchanged" is false. -/
theorem Array_spawn_child_isolation_cex :
    (ArrayObj.mk [2] 1 0).value_get ⟨[[1, 2]]⟩ = [1, 2] ∧
    ((ArrayObj.mk [2] 1 0).spawn_child.setItem ⟨[[1, 2]]⟩ 0 99) = ⟨[[99, 2]]⟩ ∧
    (ArrayObj.mk [2] 1 0).value_get
      ((ArrayObj.mk [2] 1 0).spawn_child.setItem ⟨[[1, 2]]⟩ 0 99) = [99, 2] ∧
    ([99, 2] : List ℚ) ≠ [1, 2] := by
  refine ⟨by decide, by decide, by decide, by decide⟩

/-- C3 (amended): after `child = parent.spawn_child()` the ndarray storage
is aliased (`child._value` is the very same object), so in-place element
mutation through either node is visible through the other; however, value
*reassignment* (the `value` setter or `with_std_data`, which bind a fresh
array object) on the spawned child leaves the parent's value unchanged —
and symmetrically, since parent and child hold the same reference. -/
theorem Array_spawn_child_setter_isolation (h : NpHeap) (a : ArrayObj) (d : List ℚ)
    (href : a.ref < h.cells.length) :
    a.spawn_child.ref = a.ref ∧
    a.value_get (a.spawn_child.value_setFresh h d).1 = a.value_get h ∧
    (a.spawn_child.value_setFresh h d).2.value_get (a.spawn_child.value_setFresh h d).1 = d := by
  refine ⟨rfl, ?_, ?_⟩
  · show NpHeap.read ⟨h.cells ++ [d]⟩ a.ref = NpHeap.read h a.ref
    rw [NpHeap.read, NpHeap.read]
    show (h.cells ++ [d]).getD a.ref [] = h.cells.getD a.ref []
    rw [List.getD_eq_getElem?_getD, List.getD_eq_getElem?_getD,
      List.getElem?_append_left href]
  · show NpHeap.read ⟨h.cells ++ [d]⟩ h.cells.length = d
    rw [NpHeap.read]
    show (h.cells ++ [d]).getD h.cells.length [] = d
    rw [List.getD_eq_getElem?_getD, List.getElem?_concat_length]
    rfl

/-- C3 (witness): the setter-level isolation at a concrete heap — after
`child.value = [7, 8]`, the parent still reads `[1, 2]`. -/
theorem Array_spawn_child_setter_isolation_witness :
    ((ArrayObj.mk [2] 1 0).ref < (⟨[[1, 2]]⟩ : NpHeap).cells.length) ∧
    (ArrayObj.mk [2] 1 0).value_get
      ((ArrayObj.mk [2] 1 0).spawn_child.value_setFresh ⟨[[1, 2]]⟩ [7, 8]).1 =
      (ArrayObj.mk [2] 1 0).value_get ⟨[[1, 2]]⟩ :=
  ⟨by decide,
    (Array_spawn_child_setter_isolation ⟨[[1, 2]]⟩ (ArrayObj.mk [2] 1 0) [7, 8]
      (by decide)).2.1⟩

/-! ### `Instrumentation` conversion state (C9)

`arguments_to_data` / `data_to_arguments`
(src/nevergrad/parametrization/container.py, 108–137) operate on the
private `_compatibility` copy: `self._compatibility_` starts as `None` and
the `_compatibility` property spawns the copy on first use and memoizes
it.  Modelled from the spec: `spawn_child`, `get_standardized_data` and
`set_standardized_data` live in `core.py`, which is not under `src/`; per
the spec (§3, §4.4) `spawn_child` builds an independently owned copy of
the node, and the two standardized-data entry points only read/write the
node they are called on.  The model therefore keeps, of an
`Instrumentation`, its canonical structured value, the structured value of
the memoized copy (if created), and how many times `spawn_child` has been
invoked to create that copy; the value-to-data and data-to-value maps are
abstract parameters. -/

structure InstruState (α : Type) where
  canonicalValue : α
  compatValue : Option α
  spawnCount : Nat
deriving DecidableEq, Repr

/-- The `_compatibility` property: spawn the detached copy on first use
(`if self._compatibility_ is None: self._compatibility_ =
self.spawn_child()`), memoized thereafter. -/
def ensureCompat {α : Type} (s : InstruState α) : InstruState α :=
  match s.compatValue with
  | none => { s with compatValue := some s.canonicalValue, spawnCount := s.spawnCount + 1 }
  | some _ => s

/-- `arguments_to_data(*args, **kwargs)`: set the detached copy's value to
`(args, kwargs)`, return its standardized data (`toData` is the tree's
value-to-flat-vector map). -/
def arguments_to_data {α : Type} (toData : α → List ℚ) (s : InstruState α) (ak : α) :
    InstruState α × List ℚ :=
  ({ ensureCompat s with compatValue := some ak }, toData ak)

/-- `data_to_arguments(data, deterministic)`: set the detached copy's
standardized data (reconstructing its structured value via `ofData`),
return the copy's value. -/
def data_to_arguments {α : Type} (ofData : List ℚ → Bool → α) (s : InstruState α)
    (data : List ℚ) (deterministic : Bool) : InstruState α × α :=
  ({ ensureCompat s with compatValue := some (ofData data deterministic) },
    ofData data deterministic)

/-- A conversion call, for reasoning about arbitrary call sequences. -/
inductive ConvOp (α : Type) where
  | a2d (ak : α)
  | d2a (data : List ℚ) (deterministic : Bool)

def runConvOps {α : Type} (toData : α → List ℚ) (ofData : List ℚ → Bool → α) :
    InstruState α → List (ConvOp α) → InstruState α
  | s, [] => s
  | s, ConvOp.a2d ak :: rest =>
      runConvOps toData ofData (arguments_to_data toData s ak).1 rest
  | s, ConvOp.d2a d det :: rest =>
      runConvOps toData ofData (data_to_arguments ofData s d det).1 rest

theorem runConvOps_canonical {α : Type} (toData : α → List ℚ)
    (ofData : List ℚ → Bool → α) (ops : List (ConvOp α)) :
    ∀ s : InstruState α,
      (runConvOps toData ofData s ops).canonicalValue = s.canonicalValue := by
  induction ops with
  | nil => intro s; rfl
  | cons op rest ih =>
    intro s
    cases op with
    | a2d ak =>
        rw [runConvOps, ih]
        rw [arguments_to_data]
        show (ensureCompat s).canonicalValue = s.canonicalValue
        rw [ensureCompat]
        cases s.compatValue <;> rfl
    | d2a d det =>
        rw [runConvOps, ih]
        rw [data_to_arguments]
        show (ensureCompat s).canonicalValue = s.canonicalValue
        rw [ensureCompat]
        cases s.compatValue <;> rfl

theorem runConvOps_spawnCount_of_some {α : Type} (toData : α → List ℚ)
    (ofData : List ℚ → Bool → α) (ops : List (ConvOp α)) :
    ∀ (s : InstruState α) (x : α), s.compatValue = some x →
      (runConvOps toData ofData s ops).spawnCount = s.spawnCount := by
  induction ops with
  | nil => intro s x _; rfl
  | cons op rest ih =>
    intro s x hx
    cases op with
    | a2d ak =>
        rw [runConvOps]
        have h1 : (arguments_to_data toData s ak).1 =
            { s with compatValue := some ak } := by
          rw [arguments_to_data]
          show { ensureCompat s with compatValue := some ak } = _
          rw [ensureCompat, hx]
        rw [h1, ih { s with compatValue := some ak } ak rfl]
    | d2a d det =>
        rw [runConvOps]
        have h1 : (data_to_arguments ofData s d det).1 =
            { s with compatValue := some (ofData d det) } := by
          rw [data_to_arguments]
          show { ensureCompat s with compatValue := some (ofData d det) } = _
          rw [ensureCompat, hx]
        rw [h1, ih { s with compatValue := some (ofData d det) } (ofData d det) rfl]

/-- C9: starting from a fresh `Instrumentation` (no `_compatibility_` yet),
any sequence of `arguments_to_data` / `data_to_arguments` calls leaves the
canonical instance's own value untouched, and the detached copy is spawned
lazily at most once — zero times if no conversion is made, exactly once as
soon as one is, and it is reused (never re-spawned) by every later call. -/
theorem Instrumentation_conversion_isolation {α : Type} (toData : α → List ℚ)
    (ofData : List ℚ → Bool → α) (ops : List (ConvOp α)) (v0 : α) :
    (runConvOps toData ofData ⟨v0, none, 0⟩ ops).canonicalValue = v0 ∧
    (runConvOps toData ofData ⟨v0, none, 0⟩ ops).spawnCount = min ops.length 1 := by
  refine ⟨runConvOps_canonical toData ofData ops _, ?_⟩
  cases ops with
  | nil => rfl
  | cons op rest =>
    rw [show min (op :: rest).length 1 = 1 by simp]
    cases op with
    | a2d ak =>
        rw [runConvOps]
        have h1 : (arguments_to_data toData (⟨v0, none, 0⟩ : InstruState α) ak).1 =
            ⟨v0, some ak, 1⟩ := rfl
        rw [h1, runConvOps_spawnCount_of_some toData ofData rest _ ak rfl]
    | d2a d det =>
        rw [runConvOps]
        have h1 : (data_to_arguments ofData (⟨v0, none, 0⟩ : InstruState α) d det).1 =
            ⟨v0, some (ofData d det), 1⟩ := rfl
        rw [h1, runConvOps_spawnCount_of_some toData ofData rest _ (ofData d det) rfl]

end Nevergrad
